import Mathlib

/-!
Shallow embedding of the `envelope` crate (content-addressed envelope store).

Modelling conventions:
* Rust `u8` bytes are `Nat` (values kept below 256 by the encoders).
* Rust `String` is its UTF-8 byte sequence, `List Nat`.
* Rust `HashMap`/`HashSet` are association lists / lists carrying the entries;
  iteration follows the list order, `insert` replaces in place or appends.
* Rust `i64` is `Int`; `to_le_bytes` is two's-complement via `% 2^64`.
* A Rust panic (out-of-bounds slice index) is `Option.none`.
* `f64` index values are carried as their IEEE-754 bit pattern (`Nat`); the
  source never inspects the numeric value of a float.
* SHA-256 (the `sha2` crate) is implemented concretely below; incremental
  `update` calls hash the concatenation of the chunks.
-/

/-! ### Byte-level primitives -/

/-- Little-endian 4-byte encoding of `n as u32` (Rust `(n as u32).to_le_bytes()`). -/
def u32le (n : Nat) : List Nat :=
  [n % 256, n / 256 % 256, n / 65536 % 256, n / 16777216 % 256]

/-- Little-endian bytes to `Nat`. -/
def leToNat : List Nat → Nat
  | [] => 0
  | b :: bs => b % 256 + 256 * leToNat bs

/-- Little-endian 8-byte two's-complement encoding of an `i64` (Rust `to_le_bytes`). -/
def i64le (v : Int) : List Nat :=
  let n := (v % (18446744073709551616 : Int)).toNat
  [n % 256, n / 256 % 256, n / 65536 % 256, n / 16777216 % 256,
   n / 4294967296 % 256, n / 1099511627776 % 256,
   n / 281474976710656 % 256, n / 72057594037927936 % 256]

/-- Decode 8 little-endian bytes as an `i64` (Rust `i64::from_le_bytes`). -/
def decodeI64 (bs : List Nat) : Int :=
  let n := leToNat bs
  if n < 9223372036854775808 then (n : Int) else (n : Int) - 18446744073709551616

/-! ### SHA-256 (model of the `sha2` crate used by `Hash256`) -/

/-- Truncate to 32 bits. -/
def w32 (n : Nat) : Nat := n % 4294967296

/-- 32-bit right rotation. -/
def rotr32 (k x : Nat) : Nat := w32 ((x >>> k) ||| (x <<< (32 - k)))

def shaCh (x y z : Nat) : Nat := (x &&& y) ^^^ ((x ^^^ 4294967295) &&& z)

def shaMaj (x y z : Nat) : Nat := (x &&& y) ^^^ (x &&& z) ^^^ (y &&& z)

def bigSigma0 (x : Nat) : Nat := rotr32 2 x ^^^ rotr32 13 x ^^^ rotr32 22 x

def bigSigma1 (x : Nat) : Nat := rotr32 6 x ^^^ rotr32 11 x ^^^ rotr32 25 x

def smallSigma0 (x : Nat) : Nat := rotr32 7 x ^^^ rotr32 18 x ^^^ (x >>> 3)

def smallSigma1 (x : Nat) : Nat := rotr32 17 x ^^^ rotr32 19 x ^^^ (x >>> 10)

def sha256K : List Nat :=
  [1116352408, 1899447441, 3049323471, 3921009573, 961987163, 1508970993,
   2453635748, 2870763221, 3624381080, 310598401, 607225278, 1426881987,
   1925078388, 2162078206, 2614888103, 3248222580, 3835390401, 4022224774,
   264347078, 604807628, 770255983, 1249150122, 1555081692, 1996064986,
   2554220882, 2821834349, 2952996808, 3210313671, 3336571891, 3584528711,
   113926993, 338241895, 666307205, 773529912, 1294757372, 1396182291,
   1695183700, 1986661051, 2177026350, 2456956037, 2730485921, 2820302411,
   3259730800, 3345764771, 3516065817, 3600352804, 4094571909, 275423344,
   430227734, 506948616, 659060556, 883997877, 958139571, 1322822218,
   1537002063, 1747873779, 1955562222, 2024104815, 2227730452, 2361852424,
   2428436474, 2756734187, 3204031479, 3329325298]

def sha256H0 : List Nat :=
  [1779033703, 3144134277, 1013904242, 2773480762, 1359893119,
   2600822924, 528734635, 1541459225]

/-- Big-endian 8-byte encoding (bit-length field of the padding). -/
def be64 (n : Nat) : List Nat :=
  [n / 72057594037927936 % 256, n / 281474976710656 % 256, n / 1099511627776 % 256,
   n / 4294967296 % 256, n / 16777216 % 256, n / 65536 % 256, n / 256 % 256, n % 256]

/-- SHA-256 padding: 0x80, zeros to 56 mod 64, then the bit length big-endian. -/
def sha256Pad (msg : List Nat) : List Nat :=
  let l := msg.length
  msg ++ 0x80 :: List.replicate ((64 - (l + 9) % 64) % 64) 0 ++ be64 (8 * l)

/-- Group bytes into big-endian 32-bit words. -/
def toWords : List Nat → List Nat
  | a :: b :: c :: d :: rest => (((a * 256 + b) * 256 + c) * 256 + d) :: toWords rest
  | _ => []

/-- Extend the 16 block words by `n` schedule words. -/
def sha256Extend (ws : List Nat) : Nat → List Nat
  | 0 => ws
  | n + 1 =>
    let t := ws.length
    let x := w32 (smallSigma1 (ws.getD (t - 2) 0) + ws.getD (t - 7) 0 +
                  smallSigma0 (ws.getD (t - 15) 0) + ws.getD (t - 16) 0)
    sha256Extend (ws ++ [x]) n

/-- One compression round on state `[a,b,c,d,e,f,g,h]`. -/
def sha256Round (w k : Nat) (s : List Nat) : List Nat :=
  match s with
  | [a, b, c, d, e, f, g, h] =>
    let t1 := w32 (h + bigSigma1 e + shaCh e f g + k + w)
    let t2 := w32 (bigSigma0 a + shaMaj a b c)
    [w32 (t1 + t2), a, b, c, w32 (d + t1), e, f, g]
  | s => s

/-- Compress one 64-byte block into the hash state. -/
def sha256Block (hs block : List Nat) : List Nat :=
  let ws := sha256Extend (toWords block) 48
  let s := (List.zip ws sha256K).foldl (fun s wk => sha256Round wk.1 wk.2 s) hs
  List.zipWith (fun a b => w32 (a + b)) hs s

/-- Split into 64-byte chunks (structural recursion on a fuel bounded by the
length; each step consumes at least one byte, so the fuel never runs out). -/
def chunk64Go : Nat → List Nat → List (List Nat)
  | 0, _ => []
  | _, [] => []
  | fuel + 1, a :: rest => ((a :: rest).take 64) :: chunk64Go fuel ((a :: rest).drop 64)

/-- Split into 64-byte chunks. -/
def chunk64 (l : List Nat) : List (List Nat) := chunk64Go l.length l

/-- Words back to big-endian bytes. -/
def wordsToBytes (ws : List Nat) : List Nat :=
  ws.flatMap fun w => [w / 16777216 % 256, w / 65536 % 256, w / 256 % 256, w % 256]

/-- Full SHA-256 of a byte sequence. -/
def sha256 (msg : List Nat) : List Nat :=
  wordsToBytes ((chunk64 (sha256Pad msg)).foldl sha256Block sha256H0)

/-! ### Hash256 (src/hash.rs) -/

/-- `Hash256`: a 32-byte digest (src/hash.rs). -/
structure Hash256 where
  bytes : List Nat
deriving DecidableEq, Repr

/-- `Hash256::hash` — SHA-256 of a byte sequence. -/
def Hash256.hash (data : List Nat) : Hash256 := ⟨sha256 data⟩

/-- `Hash256::hash_parts` — incremental SHA-256 over chunks hashes their
concatenation. -/
def Hash256.hash_parts (parts : List (List Nat)) : Hash256 := ⟨sha256 parts.flatten⟩

/-- One lowercase hex character code (Rust `hex::encode`). -/
def hexChar (n : Nat) : Nat := if n < 10 then 48 + n else 87 + n

/-- `Hash256::to_hex` — lowercase hex character codes of the digest. -/
def Hash256.to_hex (h : Hash256) : List Nat :=
  h.bytes.flatMap fun b => [hexChar (b / 16), hexChar (b % 16)]

/-! ### Envelope model (src/envelope.rs) -/

/-- `Relationship` (src/envelope.rs): a typed edge to a target digest. -/
structure Relationship where
  rel_type : List Nat
  target : Hash256
deriving DecidableEq, Repr

/-- `IndexValue` (src/envelope.rs): tagged index field values. `float64`
carries the IEEE-754 bit pattern. -/
inductive IndexValue where
  | string (s : List Nat)
  | int64 (v : Int)
  | float64 (bits : Nat)
  | bool (b : Bool)
  | hash (h : Hash256)
  | timestamp (v : Int)
deriving DecidableEq, Repr

/-- `Envelope` (src/envelope.rs). `index` models the Rust `HashMap` as an
association list (unique keys, iteration in list order). -/
structure Envelope where
  type_hash : Hash256
  type_name : Option (List Nat)
  relationships : List Relationship
  index : List (List Nat × IndexValue)
  previous : Option Hash256
  created_at : Option Int
  payload : List Nat
deriving DecidableEq, Repr

/-! ### Association-list model of `HashMap` / `HashSet` -/

/-- `HashMap::insert`: replace the value at an existing key, else append. -/
def mapInsert {K V : Type} [DecidableEq K] (k : K) (v : V) : List (K × V) → List (K × V)
  | [] => [(k, v)]
  | (k0, v0) :: rest => if k0 = k then (k, v) :: rest else (k0, v0) :: mapInsert k v rest

/-- `HashMap::get`. -/
def mapFind {K V : Type} [DecidableEq K] (k : K) : List (K × V) → Option V
  | [] => none
  | (k0, v0) :: rest => if k0 = k then some v0 else mapFind k rest

/-- `HashMap::entry(k).or_default()` then apply `f` to the entry's value. -/
def mapUpdate {K V : Type} [DecidableEq K] (k : K) (dflt : V) (f : V → V) :
    List (K × V) → List (K × V)
  | [] => [(k, f dflt)]
  | (k0, v0) :: rest => if k0 = k then (k, f v0) :: rest else (k0, v0) :: mapUpdate k dflt f rest

/-- `HashMap::get_mut(k)` then apply `f` when present. -/
def mapModify {K V : Type} [DecidableEq K] (k : K) (f : V → V) :
    List (K × V) → List (K × V)
  | [] => []
  | (k0, v0) :: rest => if k0 = k then (k, f v0) :: rest else (k0, v0) :: mapModify k f rest

/-- `HashSet::insert`. -/
def setInsert {α : Type} [DecidableEq α] (x : α) (s : List α) : List α :=
  if x ∈ s then s else x :: s

/-- `HashSet::remove`. -/
def setRemove {α : Type} [DecidableEq α] (x : α) (s : List α) : List α :=
  s.filter fun y => y ≠ x

/-! ### Structural hash `Envelope::hash` (src/envelope.rs lines 93-131) -/

/-- The sort key used by `Envelope::hash` for relationships:
`(&a.rel_type, a.target.as_bytes())` under Rust tuple (lexicographic) order. -/
def relKey (r : Relationship) : List Nat × List Nat := (r.rel_type, r.target.bytes)

/-- Lexicographic `≤` on the relationship sort key (Rust `Ord` on tuples of
byte strings). -/
def relLe (a b : Relationship) : Prop :=
  (relKey a).1 < (relKey b).1 ∨ ((relKey a).1 = (relKey b).1 ∧ (relKey a).2 ≤ (relKey b).2)

instance : DecidableRel relLe := fun a b => by unfold relLe; infer_instance

/-- Key order used by `idx.sort_by_key(|(k, _)| *k)`. -/
def keyLe (a b : List Nat × IndexValue) : Prop := a.1 ≤ b.1

instance : DecidableRel keyLe := fun a b => by unfold keyLe; infer_instance

/-- `rels.sort_by(...)` — a stable sort by `relKey`. -/
def sortRels (rs : List Relationship) : List Relationship := List.insertionSort relLe rs

/-- `idx.sort_by_key(|(k, _)| *k)` — a stable sort by key. -/
def sortIdx (idx : List (List Nat × IndexValue)) : List (List Nat × IndexValue) :=
  List.insertionSort keyLe idx

/-- The byte chunks `Envelope::hash` pushes for one sorted index entry: the
key always; the value only for `String` (the `Int64` arm computes bytes but
pushes nothing — dead code; all other arms push nothing). -/
def hashEntryParts (kv : List Nat × IndexValue) : List (List Nat) :=
  kv.1 :: (match kv.2 with
    | .string s => [s]
    | _ => [])

/-- `Envelope::hash` (src/envelope.rs): SHA-256 over type hash, sorted
relationships, sorted index entries (keys, and values only for strings),
then payload. `type_name`, `previous` and `created_at` are not hashed. -/
def Envelope.hash (e : Envelope) : Hash256 :=
  Hash256.hash_parts
    ([e.type_hash.bytes]
     ++ (sortRels e.relationships).flatMap (fun r => [r.rel_type, r.target.bytes])
     ++ (sortIdx e.index).flatMap hashEntryParts
     ++ [e.payload])

/-! ### Error type (src/error.rs) -/

/-- `Error` (src/error.rs). Message payloads are byte strings; the `Io`
payload is not modelled. -/
inductive Error where
  | invalidEnvelope (msg : List Nat)
  | hashMismatch (expected actual : List Nat)
  | notFound (hexDigest : List Nat)
  | storage (msg : List Nat)
  | serialization (msg : List Nat)
  | io
deriving DecidableEq, Repr

/-! ### Canonical encoding `Store::serialize` (src/store.rs lines 62-139) -/

/-- The `String`-valued index entries, in map-iteration order — the
`filter_map` at src/store.rs:95-102 that drops every non-`String` variant. -/
def stringIndex (idx : List (List Nat × IndexValue)) : List (List Nat × List Nat) :=
  idx.filterMap fun kv =>
    match kv.2 with
    | .string s => some (kv.1, s)
    | _ => none

/-- `Store::serialize` (src/store.rs). Relationships and index entries are
written in iteration order — no sorting — and non-`String` index values are
skipped. -/
def Store.serialize (e : Envelope) : List Nat :=
  e.type_hash.bytes
  ++ (match e.type_name with
      | some name => u32le name.length ++ name
      | none => u32le 0)
  ++ u32le e.relationships.length
  ++ e.relationships.flatMap (fun r => u32le r.rel_type.length ++ r.rel_type ++ r.target.bytes)
  ++ u32le (stringIndex e.index).length
  ++ (stringIndex e.index).flatMap
       (fun kv => u32le kv.1.length ++ kv.1 ++ u32le kv.2.length ++ kv.2)
  ++ (match e.previous with
      | some h => 1 :: h.bytes
      | none => [0])
  ++ (match e.created_at with
      | some ts => 1 :: i64le ts
      | none => [0])
  ++ u32le e.payload.length ++ e.payload

/-! ### Decoding `Store::deserialize` (src/store.rs lines 141-232)

The Rust decoder reads with unchecked slice indexing (`bytes[c..c+n]`), so a
truncated buffer makes it panic; it has no `Err`-returning path.  `none`
models that panic.  `String::from_utf8_lossy` is modelled as the identity on
the raw bytes: every buffer the encoder produces holds valid UTF-8 there, and
no claim depends on the envelope value decoded from invalid UTF-8. -/

/-- Take exactly `n` bytes; `none` is the out-of-bounds panic. -/
def takeN (n : Nat) (b : List Nat) : Option (List Nat × List Nat) :=
  if n ≤ b.length then some (b.take n, b.drop n) else none

/-- `read_u32`. -/
def readU32 (b : List Nat) : Option (Nat × List Nat) :=
  (takeN 4 b).map fun p => (leToNat p.1, p.2)

/-- `read_i64`. -/
def readI64 (b : List Nat) : Option (Int × List Nat) :=
  (takeN 8 b).map fun p => (decodeI64 p.1, p.2)

/-- `read_hash`. -/
def readHash (b : List Nat) : Option (Hash256 × List Nat) :=
  (takeN 32 b).map fun p => (⟨p.1⟩, p.2)

/-- `read_string`: u32 length then that many bytes. -/
def readStr (b : List Nat) : Option (List Nat × List Nat) := do
  let (n, b) ← readU32 b
  takeN n b

/-- The relationships loop of `deserialize`. -/
def readRels : Nat → List Nat → Option (List Relationship × List Nat)
  | 0, b => some ([], b)
  | n + 1, b => do
    let (rt, b) ← readStr b
    let (tg, b) ← readHash b
    let (rest, b) ← readRels n b
    return (⟨rt, tg⟩ :: rest, b)

/-- The index loop of `deserialize`: key/value string pairs in read order. -/
def readIdx : Nat → List Nat → Option (List (List Nat × List Nat) × List Nat)
  | 0, b => some ([], b)
  | n + 1, b => do
    let (k, b) ← readStr b
    let (v, b) ← readStr b
    let (rest, b) ← readIdx n b
    return ((k, v) :: rest, b)

/-- `Store::deserialize` (src/store.rs). `none` models a panic; the function
never returns a typed error. -/
def Store.deserialize (bytes : List Nat) : Option Envelope := do
  let (type_hash, b) ← readHash bytes
  let (tn, b) ← readStr b
  let type_name := if tn.length > 0 then some tn else none
  let (relCount, b) ← readU32 b
  let (relationships, b) ← readRels relCount b
  let (idxCount, b) ← readU32 b
  let (pairs, b) ← readIdx idxCount b
  let index := pairs.foldl (fun m kv => mapInsert kv.1 (IndexValue.string kv.2) m) []
  let (pres, b) ← takeN 1 b
  let (previous, b) ←
    if pres = [1] then (readHash b).map (fun p => (some p.1, p.2)) else pure (none, b)
  let (cres, b) ← takeN 1 b
  let (created_at, b) ←
    if cres = [1] then (readI64 b).map (fun p => (some p.1, p.2)) else pure (none, b)
  let (plen, b) ← readU32 b
  let (payload, _) ← takeN plen b
  return { type_hash, type_name, relationships, index, previous, created_at, payload }

/-! ### Store (src/store.rs lines 13-59) -/

/-- `Store`: digest → serialized bytes (`HashMap` as association list). -/
structure Store where
  objects : List (Hash256 × List Nat)
deriving DecidableEq, Repr

/-- `Store::new`. -/
def Store.new : Store := ⟨[]⟩

/-- `Store::put`: serialize, hash the bytes, insert, return the digest. -/
def Store.put (s : Store) (e : Envelope) : Hash256 × Store :=
  let bytes := Store.serialize e
  let h := Hash256.hash bytes
  (h, ⟨mapInsert h bytes s.objects⟩)

/-- `Store::contains`. -/
def Store.contains (s : Store) (h : Hash256) : Bool := (mapFind h s.objects).isSome

/-- `Store::len`. -/
def Store.len (s : Store) : Nat := s.objects.length

/-- `Store::get`: `NotFound` on a missing digest, else deserialize (whose
panic is the outer `none`). -/
def Store.get (s : Store) (h : Hash256) : Option (Except Error Envelope) :=
  match mapFind h s.objects with
  | none => some (.error (.notFound h.to_hex))
  | some bytes => (Store.deserialize bytes).map .ok

/-! ### Index engine (src/index.rs) -/

/-- `Index` (src/index.rs): four derived lookup maps; sets are lists with
`setInsert`/`setRemove`. -/
structure Index where
  by_type : List (Hash256 × List Hash256)
  by_string_field : List ((List Nat × List Nat) × List Hash256)
  by_relationship : List (List Nat × List (Hash256 × List Hash256))
  references_to : List (Hash256 × List Hash256)
deriving DecidableEq, Repr

/-- `Index::new`. -/
def Index.new : Index := ⟨[], [], [], []⟩

/-- One iteration of the string-field loop in `Index::add`. -/
def addFieldStep (h : Hash256) (idx : Index) (kv : List Nat × IndexValue) : Index :=
  match kv.2 with
  | .string s =>
    { idx with by_string_field := mapUpdate (kv.1, s) [] (setInsert h) idx.by_string_field }
  | _ => idx

/-- One iteration of the relationships loop in `Index::add` (updates both the
two-level reverse index and `references_to`). -/
def addRelStep (h : Hash256) (idx : Index) (r : Relationship) : Index :=
  { idx with
    by_relationship :=
      mapUpdate r.rel_type [] (mapUpdate r.target [] (setInsert h)) idx.by_relationship,
    references_to := mapUpdate r.target [] (setInsert h) idx.references_to }

/-- `Index::add` (src/index.rs lines 33-64). -/
def Index.add (idx : Index) (h : Hash256) (e : Envelope) : Index :=
  let idx1 := { idx with by_type := mapUpdate e.type_hash [] (setInsert h) idx.by_type }
  let idx2 := e.index.foldl (addFieldStep h) idx1
  e.relationships.foldl (addRelStep h) idx2

/-- One iteration of the string-field loop in `Index::remove`. -/
def removeFieldStep (h : Hash256) (idx : Index) (kv : List Nat × IndexValue) : Index :=
  match kv.2 with
  | .string s =>
    { idx with by_string_field := mapModify (kv.1, s) (setRemove h) idx.by_string_field }
  | _ => idx

/-- One iteration of the relationships loop in `Index::remove`. -/
def removeRelStep (h : Hash256) (idx : Index) (r : Relationship) : Index :=
  { idx with
    by_relationship :=
      mapModify r.rel_type (mapModify r.target (setRemove h)) idx.by_relationship,
    references_to := mapModify r.target (setRemove h) idx.references_to }

/-- `Index::remove` (src/index.rs lines 67-93). -/
def Index.remove (idx : Index) (h : Hash256) (e : Envelope) : Index :=
  let idx1 := { idx with by_type := mapModify e.type_hash (setRemove h) idx.by_type }
  let idx2 := e.index.foldl (removeFieldStep h) idx1
  e.relationships.foldl (removeRelStep h) idx2

/-- `Index::by_type` query (the digests yielded by the iterator). -/
def Index.queryByType (idx : Index) (t : Hash256) : List Hash256 :=
  (mapFind t idx.by_type).getD []

/-- `Index::by_field` query. -/
def Index.queryByField (idx : Index) (k v : List Nat) : List Hash256 :=
  (mapFind (k, v) idx.by_string_field).getD []

/-- `Index::by_relationship` query (`get(rel_type).and_then(|m| m.get(target))`). -/
def Index.queryByRelationship (idx : Index) (rt : List Nat) (tgt : Hash256) : List Hash256 :=
  ((mapFind rt idx.by_relationship).bind fun inner => mapFind tgt inner).getD []

/-- `Index::references_to` query. -/
def Index.queryReferencesTo (idx : Index) (tgt : Hash256) : List Hash256 :=
  (mapFind tgt idx.references_to).getD []

/-! ### IndexedStore facade (src/index.rs lines 129-181) -/

/-- `IndexedStore`: `Store` plus `Index`. -/
structure IndexedStore where
  store : Store
  index : Index
deriving DecidableEq, Repr

/-- `IndexedStore::new`. -/
def IndexedStore.new : IndexedStore := ⟨Store.new, Index.new⟩

/-- `IndexedStore::put`: store first, then index, then return the digest. -/
def IndexedStore.put (s : IndexedStore) (e : Envelope) : Hash256 × IndexedStore :=
  let (h, st) := s.store.put e
  (h, ⟨st, s.index.add h e⟩)

/-- `IndexedStore::contains`. -/
def IndexedStore.contains (s : IndexedStore) (h : Hash256) : Bool := s.store.contains h

/-- `IndexedStore::query_by_type`. -/
def IndexedStore.query_by_type (s : IndexedStore) (t : Hash256) : List Hash256 :=
  s.index.queryByType t

/-- `IndexedStore::query_by_field`. -/
def IndexedStore.query_by_field (s : IndexedStore) (k v : List Nat) : List Hash256 :=
  s.index.queryByField k v

/-- `IndexedStore::query_references_to`. -/
def IndexedStore.query_references_to (s : IndexedStore) (tgt : Hash256) : List Hash256 :=
  s.index.queryReferencesTo tgt

/-- Fold a list of `put` calls from an arbitrary starting state. -/
def IndexedStore.putAll (s : IndexedStore) (es : List Envelope) : IndexedStore :=
  es.foldl (fun s e => (s.put e).2) s

/-- Fold a list of `Store::put` calls. -/
def Store.putAll (s : Store) (es : List Envelope) : Store :=
  es.foldl (fun s e => (s.put e).2) s

/-- The digest `Store::put` computes for an envelope. -/
def putDigest (e : Envelope) : Hash256 := Hash256.hash (Store.serialize e)

/-! ### Well-formedness and decode-image helpers -/

/-- Representation bounds a Rust `Envelope` satisfies: 32-byte digests,
`u32`-sized lengths and counts, `i64`-ranged timestamps. -/
def sizesOk (e : Envelope) : Bool :=
  (e.type_hash.bytes.length == 32)
  && (match e.type_name with | some n => n.length < 4294967296 | none => true)
  && (e.relationships.length < 4294967296)
  && e.relationships.all (fun r =>
       (r.rel_type.length < 4294967296 : Bool) && (r.target.bytes.length == 32))
  && (e.index.length < 4294967296)
  && e.index.all (fun kv =>
       (kv.1.length < 4294967296 : Bool) &&
       (match kv.2 with | .string s => (s.length < 4294967296 : Bool) | _ => true))
  && (match e.previous with | some h => h.bytes.length == 32 | none => true)
  && (match e.created_at with
      | some ts => (-9223372036854775808 ≤ ts : Bool) && (ts < 9223372036854775808 : Bool)
      | none => true)
  && (e.payload.length < 4294967296)

/-- Keys of the index map are distinct (a `HashMap` representation
invariant). -/
def keysNodup (e : Envelope) : Prop := (e.index.map Prod.fst).Nodup

instance (e : Envelope) : Decidable (keysNodup e) := by unfold keysNodup; infer_instance

/-- Every index value is the `String` variant. -/
def allStringIndex (e : Envelope) : Bool :=
  e.index.all fun kv => match kv.2 with | .string _ => true | _ => false

/-- The index map `deserialize` rebuilds: the string entries re-inserted in
read order. -/
def decodedIndex (e : Envelope) : List (List Nat × IndexValue) :=
  (stringIndex e.index).foldl (fun m kv => mapInsert kv.1 (IndexValue.string kv.2) m) []

/-- The envelope `deserialize` returns for `serialize e`: identical except
that non-`String` index entries are gone and an empty `type_name` collapses
to `none`. -/
def decodedEnvelope (e : Envelope) : Envelope :=
  { e with
    type_name := match e.type_name with
      | some [] => none
      | x => x,
    index := decodedIndex e }

/-- The projection of an index entry that `Envelope::hash` actually
consumes: the key, and the value only when it is a `String`. -/
def stripVal (kv : List Nat × IndexValue) : List Nat × Option (List Nat) :=
  (kv.1, match kv.2 with | .string s => some s | _ => none)

/-! ### Concrete inputs for counterexamples and witnesses -/

def hZero : Hash256 := ⟨List.replicate 32 0⟩

def hOne : Hash256 := ⟨List.replicate 32 1⟩

def relA : Relationship := ⟨[97], hZero⟩

def relB : Relationship := ⟨[98], hOne⟩

/-- Two relationships in insertion order `[a, b]`. -/
def exOrd1 : Envelope := ⟨hZero, none, [relA, relB], [], none, none, []⟩

/-- The same relationship set in insertion order `[b, a]`. -/
def exOrd2 : Envelope := ⟨hZero, none, [relB, relA], [], none, none, []⟩

/-- An envelope whose only index entry is `Int64 1` under key "n". -/
def eInt1 : Envelope := ⟨hZero, none, [], [([110], .int64 1)], none, none, []⟩

/-- Like `eInt1` but with value `Int64 2`. -/
def eInt2 : Envelope := ⟨hZero, none, [], [([110], .int64 2)], none, none, []⟩

/-- The minimal envelope: zero type hash, no metadata, empty payload. -/
def eMin : Envelope := ⟨hZero, none, [], [], none, none, []⟩

/-- A full-featured envelope with only `String` index values. -/
def eWit : Envelope :=
  ⟨hZero, some [84], [relA], [([107], .string [118])], some hOne, some 42, [1, 2, 3]⟩

/-- The byte chunks contributed by a stripped index entry (used to factor
`hashEntryParts` through `stripVal`). -/
def stripParts (p : List Nat × Option (List Nat)) : List (List Nat) :=
  p.1 :: (match p.2 with | some s => [s] | none => [])

/-- Relationships `[a, b]` and a two-entry index, one insertion order. -/
def eP1 : Envelope :=
  ⟨hZero, none, [relA, relB], [([107], .string [118]), ([108], .int64 5)], none, none, [9]⟩

/-- The same content as `eP1`, both collections in the other order. -/
def eP2 : Envelope :=
  ⟨hZero, none, [relB, relA], [([108], .int64 5), ([107], .string [118])], none, none, [9]⟩

/-- Full metadata and a non-`String` index value. -/
def eMeta1 : Envelope :=
  ⟨hZero, some [65], [relA], [([107], .string [118]), ([109], .int64 7)], some hOne, some 1, [5]⟩

/-- Differs from `eMeta1` in `type_name`, `previous`, `created_at` and the
non-`String` index value — everything `Envelope::hash` ignores. -/
def eMeta2 : Envelope :=
  ⟨hZero, none, [relA], [([107], .string [118]), ([109], .bool true)], none, some 2, [5]⟩

/-- Every stored byte string is the encoding of some size-well-formed
envelope (holds for every store reachable by `put`s from `new`). -/
def GoodStore (s : Store) : Prop :=
  ∀ d bs, mapFind d s.objects = some bs → ∃ e, bs = Store.serialize e ∧ sizesOk e = true

/-- Facade invariant: every digest any index query can return is present in
the underlying store. -/
def StoreIndexConsistent (s : IndexedStore) : Prop :=
  (∀ t d, d ∈ s.query_by_type t → s.contains d = true)
  ∧ (∀ k v d, d ∈ s.query_by_field k v → s.contains d = true)
  ∧ (∀ tgt d, d ∈ s.query_references_to tgt → s.contains d = true)

/-! ### Helper lemmas: the relationship sort order -/

lemma relLe_total : ∀ a b : Relationship, relLe a b ∨ relLe b a := by
  intro a b
  unfold relLe relKey
  rcases lt_trichotomy a.rel_type b.rel_type with h | h | h
  · exact Or.inl (Or.inl h)
  · rcases le_total a.target.bytes b.target.bytes with h2 | h2
    · exact Or.inl (Or.inr ⟨h, h2⟩)
    · exact Or.inr (Or.inr ⟨h.symm, h2⟩)
  · exact Or.inr (Or.inl h)

instance : IsTotal Relationship relLe := ⟨relLe_total⟩

instance : IsTrans Relationship relLe := by
  constructor
  intro a b c hab hbc
  unfold relLe relKey at *
  rcases hab with h1 | ⟨h1, h1'⟩ <;> rcases hbc with h2 | ⟨h2, h2'⟩
  · exact Or.inl (lt_trans h1 h2)
  · exact Or.inl (h2 ▸ h1)
  · exact Or.inl (h1 ▸ h2)
  · exact Or.inr ⟨h1.trans h2, le_trans h1' h2'⟩

instance : IsAntisymm Relationship relLe := by
  constructor
  intro a b hab hba
  unfold relLe relKey at hab hba
  have ht : a.rel_type = b.rel_type := by
    rcases hab with h1 | ⟨h1, _⟩ <;> rcases hba with h2 | ⟨h2, _⟩
    · exact absurd h2 (lt_asymm h1)
    · exact h2.symm
    · exact h1
    · exact h1
  have hg : a.target.bytes = b.target.bytes := by
    rcases hab with h1 | ⟨_, h1'⟩
    · exact absurd (ht ▸ h1) (lt_irrefl _)
    · rcases hba with h2 | ⟨_, h2'⟩
      · exact absurd (ht ▸ h2) (lt_irrefl _)
      · exact le_antisymm h1' h2'
  obtain ⟨ta, ga⟩ := a
  obtain ⟨tb, gb⟩ := b
  obtain ⟨ba⟩ := ga
  obtain ⟨bb⟩ := gb
  simp only at ht hg
  rw [ht, hg]

/-- Rust's stable sort is determined by the multiset for an antisymmetric
total order: permuted inputs sort identically. -/
lemma sortRels_eq_of_perm {l1 l2 : List Relationship} (h : l1.Perm l2) :
    sortRels l1 = sortRels l2 :=
  List.eq_of_perm_of_sorted
    (((List.perm_insertionSort relLe l1).trans h).trans (List.perm_insertionSort relLe l2).symm)
    (List.sorted_insertionSort relLe l1) (List.sorted_insertionSort relLe l2)

/-! ### Helper lemmas: the index key sort order -/

lemma keyLe_total : ∀ a b : List Nat × IndexValue, keyLe a b ∨ keyLe b a := by
  intro a b; exact le_total a.1 b.1

instance : IsTotal (List Nat × IndexValue) keyLe := ⟨keyLe_total⟩

instance : IsTrans (List Nat × IndexValue) keyLe := by
  constructor; intro a b c hab hbc; exact le_trans hab hbc

/-- Two key-sorted lists that are permutations of each other and have
distinct keys are equal (keys may repeat across values, hence no
antisymmetry; distinctness substitutes for it). -/
lemma sorted_keyLe_nodup_eq : ∀ {l1 l2 : List (List Nat × IndexValue)},
    l1.Perm l2 → l1.Sorted keyLe → l2.Sorted keyLe → (l1.map Prod.fst).Nodup → l1 = l2 := by
  intro l1
  induction l1 with
  | nil => intro l2 h _ _ _; exact (h.symm.eq_nil).symm ▸ rfl
  | cons a t1 ih =>
    intro l2 h hs1 hs2 hnd
    match l2 with
    | [] => exact absurd h.eq_nil (List.cons_ne_nil a t1)
    | b :: t2 =>
      by_cases hab : a = b
      · subst hab
        have ht : t1 = t2 :=
          ih h.cons_inv hs1.of_cons hs2.of_cons (by simpa using hnd.of_cons)
        rw [ht]
      · exfalso
        have ha2 : a ∈ t2 := by
          have := h.subset (List.mem_cons_self a t1)
          simpa [hab] using this
        have hb1 : b ∈ t1 := by
          have := h.symm.subset (List.mem_cons_self b t2)
          have hba : b ≠ a := fun hh => hab hh.symm
          simpa [hba] using this
        have h1 : keyLe a b := List.rel_of_sorted_cons hs1 b hb1
        have h2 : keyLe b a := List.rel_of_sorted_cons hs2 a ha2
        have hk : a.1 = b.1 := le_antisymm h1 h2
        have : a.1 ∈ t1.map Prod.fst := by
          rw [hk]; exact List.mem_map_of_mem Prod.fst hb1
        simp only [List.map_cons, List.nodup_cons] at hnd
        exact hnd.1 this

/-- Permuted index lists with distinct keys sort identically. -/
lemma sortIdx_eq_of_perm {l1 l2 : List (List Nat × IndexValue)} (h : l1.Perm l2)
    (hnd : (l1.map Prod.fst).Nodup) : sortIdx l1 = sortIdx l2 := by
  refine sorted_keyLe_nodup_eq
    (((List.perm_insertionSort keyLe l1).trans h).trans (List.perm_insertionSort keyLe l2).symm)
    (List.sorted_insertionSort keyLe l1) (List.sorted_insertionSort keyLe l2) ?_
  exact (((List.perm_insertionSort keyLe l1).map Prod.fst).nodup_iff).2 hnd

/-! ### Claim C1: canonical-order determinism of the encoding -/

/-- C1 counterexample: two envelopes identical in every field except the
insertion order of their (set-equal) relationships, whose `Store::serialize`
encodings differ — the encoder does not sort, so the claimed byte-identity
fails. -/
theorem C1_counterexample :
    exOrd1.type_hash = exOrd2.type_hash ∧ exOrd1.type_name = exOrd2.type_name ∧
    exOrd1.relationships.Perm exOrd2.relationships ∧ exOrd1.index = exOrd2.index ∧
    exOrd1.previous = exOrd2.previous ∧ exOrd1.created_at = exOrd2.created_at ∧
    exOrd1.payload = exOrd2.payload ∧
    Store.serialize exOrd1 ≠ Store.serialize exOrd2 := by decide

/-- C1 (amended): `Store::serialize` writes relationships and index entries
in insertion order, so reordering changes the encoding (see
`C1_counterexample`); the insertion-order independence the source provides
lives in `Envelope::hash`, which sorts relationships by `(rel_type, target)`
and index entries by key: envelopes that differ only in the insertion order
of set-equal relationships or of index entries (with distinct keys) have
equal structural hashes. -/
theorem C1_hash_order_independent (e1 e2 : Envelope)
    (hth : e1.type_hash = e2.type_hash) (hpl : e1.payload = e2.payload)
    (hrel : e1.relationships.Perm e2.relationships)
    (hidx : e1.index.Perm e2.index)
    (hnd : keysNodup e1) :
    e1.hash = e2.hash := by
  unfold Envelope.hash
  rw [sortRels_eq_of_perm hrel, sortIdx_eq_of_perm hidx hnd, hth, hpl]

/-- C1 witness: the order-independence theorem applied to two concrete
reorderings of the same envelope content. -/
theorem C1_witness : eP1.hash = eP2.hash :=
  C1_hash_order_independent eP1 eP2 (by decide) (by decide) (by decide) (by decide)
    (by decide)

/-! ### Claim C2: no index variant is dropped -/

/-- C2: the encoder's `filter_map` silently drops every non-`String` index
entry: `eInt1` and `eInt2` differ only in an `Int64` index value, yet their
canonical encodings are byte-identical, so `Store::put` computes the same
digest for both — refuting the claimed injectivity. -/
theorem C2_nonstring_dropped :
    eInt1 ≠ eInt2 ∧
    Store.serialize eInt1 = Store.serialize eInt2 ∧
    putDigest eInt1 = putDigest eInt2 ∧
    (Store.new.put eInt1).1 = (Store.new.put eInt2).1 := by
  have h : Store.serialize eInt1 = Store.serialize eInt2 := by decide
  exact ⟨by decide, h, congrArg Hash256.hash h, congrArg Hash256.hash h⟩

/-! ### Claim C3 (counterexample): round-trip loses non-String entries -/

/-- C3 counterexample: decoding the encoding of `eInt1` (one `Int64` index
entry) succeeds but returns the envelope with an empty index — not equal
field-for-field. -/
theorem C3_counterexample :
    Store.deserialize (Store.serialize eInt1) = some { eInt1 with index := [] } ∧
    eInt1.index ≠ [] := by decide

/-! ### Claim C4: decoder behaviour on malformed input -/

set_option maxRecDepth 40000 in
/-- C4: `Store::deserialize` reads with unchecked slice indexing and has no
error-returning path: on the empty buffer and on a truncated valid encoding
it panics (modelled `none`) instead of returning a typed decoding error. -/
theorem C4_decoder_panics :
    Store.deserialize [] = none ∧
    Store.deserialize ((Store.serialize eWit).dropLast) = none := by decide

/-! ### Claim C5: structural hash versus hash of the encoding -/

set_option maxRecDepth 100000 in
set_option maxHeartbeats 1000000 in
/-- C5: `Store::put` does return `Hash256::hash(serialize(E))`, but the
structural `Envelope::hash` is a different computation (no length prefixes,
sorted collections, metadata omitted) and its digest differs from the put
digest already at the minimal envelope. -/
theorem C5_structural_hash_diverges :
    (Store.new.put eMin).1 = Hash256.hash (Store.serialize eMin) ∧
    Envelope.hash eMin ≠ Hash256.hash (Store.serialize eMin) :=
  ⟨rfl, by decide⟩

/-! ### Claim C10: what `Envelope::hash` ignores -/

lemma hashEntryParts_eq_stripParts (kv : List Nat × IndexValue) :
    hashEntryParts kv = stripParts (stripVal kv) := by
  rcases kv with ⟨k, v⟩; cases v <;> rfl

lemma flatMap_hashEntryParts (l : List (List Nat × IndexValue)) :
    l.flatMap hashEntryParts = (l.map stripVal).flatMap stripParts := by
  induction l with
  | nil => rfl
  | cons a t ih => simp [List.flatMap_cons, ih, hashEntryParts_eq_stripParts]

lemma keyLe_iff_of_stripVal {a1 a2 b1 b2 : List Nat × IndexValue}
    (ha : stripVal a1 = stripVal a2) (hb : stripVal b1 = stripVal b2) :
    keyLe a1 b1 ↔ keyLe a2 b2 := by
  have h1 : a1.1 = a2.1 := by
    have := congrArg Prod.fst ha
    simpa [stripVal] using this
  have h2 : b1.1 = b2.1 := by
    have := congrArg Prod.fst hb
    simpa [stripVal] using this
  unfold keyLe; rw [h1, h2]

lemma orderedInsert_map_stripVal :
    ∀ {t1 t2 : List (List Nat × IndexValue)} {a1 a2 : List Nat × IndexValue},
    stripVal a1 = stripVal a2 → t1.map stripVal = t2.map stripVal →
    (List.orderedInsert keyLe a1 t1).map stripVal =
      (List.orderedInsert keyLe a2 t2).map stripVal := by
  intro t1
  induction t1 with
  | nil =>
    intro t2 a1 a2 ha ht
    cases t2 with
    | nil => simpa [List.orderedInsert] using ha
    | cons b2 u2 => simp at ht
  | cons b1 t1 ih =>
    intro t2 a1 a2 ha ht
    cases t2 with
    | nil => simp at ht
    | cons b2 u2 =>
      simp only [List.map_cons, List.cons.injEq] at ht
      obtain ⟨hb, ht'⟩ := ht
      by_cases hc : keyLe a1 b1
      · have hc2 : keyLe a2 b2 := (keyLe_iff_of_stripVal ha hb).1 hc
        simp [List.orderedInsert, hc, hc2, ha, hb, ht']
      · have hc2 : ¬ keyLe a2 b2 := fun hh => hc ((keyLe_iff_of_stripVal ha hb).2 hh)
        simp [List.orderedInsert, hc, hc2, hb, ih ha ht']

lemma insertionSort_map_stripVal : ∀ {l1 l2 : List (List Nat × IndexValue)},
    l1.map stripVal = l2.map stripVal →
    (sortIdx l1).map stripVal = (sortIdx l2).map stripVal := by
  intro l1
  induction l1 with
  | nil =>
    intro l2 h
    cases l2 with
    | nil => rfl
    | cons b u => simp at h
  | cons a t ih =>
    intro l2 h
    cases l2 with
    | nil => simp at h
    | cons b u =>
      simp only [List.map_cons, List.cons.injEq] at h
      simp only [sortIdx, List.insertionSort]
      exact orderedInsert_map_stripVal h.1 (ih h.2)

/-- C10: `Envelope::hash` ignores `type_name`, `previous`, `created_at` and
the values of non-`String` index entries (their keys still contribute): any
two envelopes agreeing on `type_hash`, `relationships`, `payload` and on the
key/String-value projection of their index hash identically. -/
theorem C10_hash_ignores_metadata (e1 e2 : Envelope)
    (hth : e1.type_hash = e2.type_hash)
    (hrel : e1.relationships = e2.relationships)
    (hidx : e1.index.map stripVal = e2.index.map stripVal)
    (hpl : e1.payload = e2.payload) :
    e1.hash = e2.hash := by
  unfold Envelope.hash
  rw [hth, hrel, hpl, flatMap_hashEntryParts, flatMap_hashEntryParts,
      insertionSort_map_stripVal hidx]

/-- C10 witness: two envelopes differing in `type_name`, `previous`,
`created_at` and a non-`String` index value hash identically. -/
theorem C10_witness : eMeta1.hash = eMeta2.hash :=
  C10_hash_ignores_metadata eMeta1 eMeta2 (by decide) (by decide) (by decide) (by decide)

/-! ### Helper lemmas: byte-level round trips -/

lemma u32le_length (n : Nat) : (u32le n).length = 4 := rfl

lemma leToNat_u32le (n : Nat) : leToNat (u32le n) = n % 4294967296 := by
  simp only [u32le, leToNat]
  omega

lemma takeN_exact {n : Nat} (l r : List Nat) (h : l.length = n) :
    takeN n (l ++ r) = some (l, r) := by
  subst h
  simp [takeN, List.take_left, List.drop_left]

lemma takeN_all (l : List Nat) : takeN l.length l = some (l, []) := by
  simp [takeN]

lemma takeN_one (a : Nat) (rest : List Nat) : takeN 1 (a :: rest) = some ([a], rest) := by
  simp [takeN]

lemma readU32_exact (n : Nat) (rest : List Nat) (h : n < 4294967296) :
    readU32 (u32le n ++ rest) = some (n, rest) := by
  simp [readU32, takeN_exact (u32le n) rest (u32le_length n), leToNat_u32le,
    Nat.mod_eq_of_lt h]

lemma readHash_exact (hh : Hash256) (rest : List Nat) (hl : hh.bytes.length = 32) :
    readHash (hh.bytes ++ rest) = some (hh, rest) := by
  simp [readHash, takeN_exact hh.bytes rest hl]

lemma readStr_exact (s rest : List Nat) (h : s.length < 4294967296) :
    readStr (u32le s.length ++ (s ++ rest)) = some (s, rest) := by
  rw [readStr, readU32_exact s.length (s ++ rest) h]
  simp [takeN_exact s rest rfl]

lemma i64le_length (v : Int) : (i64le v).length = 8 := rfl

lemma decodeI64_i64le (v : Int) (h1 : -9223372036854775808 ≤ v)
    (h2 : v < 9223372036854775808) : decodeI64 (i64le v) = v := by
  simp only [decodeI64, i64le, leToNat]
  split <;> omega

lemma readI64_exact (v : Int) (rest : List Nat) (h1 : -9223372036854775808 ≤ v)
    (h2 : v < 9223372036854775808) : readI64 (i64le v ++ rest) = some (v, rest) := by
  simp [readI64, takeN_exact (i64le v) rest (i64le_length v), decodeI64_i64le v h1 h2]

lemma readRels_exact : ∀ (rs : List Relationship) (rest : List Nat),
    (∀ r ∈ rs, r.rel_type.length < 4294967296 ∧ r.target.bytes.length = 32) →
    readRels rs.length
      (rs.flatMap (fun r => u32le r.rel_type.length ++ (r.rel_type ++ r.target.bytes)) ++ rest)
      = some (rs, rest) := by
  intro rs
  induction rs with
  | nil => intro rest _; simp [readRels]
  | cons r rs ih =>
    intro rest h
    have hr := h r (List.mem_cons_self r rs)
    have hrest : ∀ r' ∈ rs, r'.rel_type.length < 4294967296 ∧ r'.target.bytes.length = 32 :=
      fun r' hr' => h r' (List.mem_cons_of_mem r hr')
    simp only [List.flatMap_cons, List.append_assoc, List.length_cons]
    rw [readRels]
    simp [readStr_exact r.rel_type _ hr.1, readHash_exact r.target _ hr.2, ih rest hrest]

lemma readIdx_exact : ∀ (ps : List (List Nat × List Nat)) (rest : List Nat),
    (∀ p ∈ ps, p.1.length < 4294967296 ∧ p.2.length < 4294967296) →
    readIdx ps.length
      (ps.flatMap (fun kv => u32le kv.1.length ++ (kv.1 ++ (u32le kv.2.length ++ kv.2))) ++ rest)
      = some (ps, rest) := by
  intro ps
  induction ps with
  | nil => intro rest _; simp [readIdx]
  | cons p ps ih =>
    intro rest h
    have hp := h p (List.mem_cons_self p ps)
    have hrest : ∀ p' ∈ ps, p'.1.length < 4294967296 ∧ p'.2.length < 4294967296 :=
      fun p' hp' => h p' (List.mem_cons_of_mem p hp')
    simp only [List.flatMap_cons, List.append_assoc, List.length_cons]
    rw [readIdx]
    simp [readStr_exact p.1 _ hp.1, readStr_exact p.2 _ hp.2, ih rest hrest]

/-! ### The decode-of-encode lemma -/

lemma stringIndex_mem {idx : List (List Nat × IndexValue)} {p : List Nat × List Nat}
    (hp : p ∈ stringIndex idx) : (p.1, IndexValue.string p.2) ∈ idx := by
  unfold stringIndex at hp
  rw [List.mem_filterMap] at hp
  obtain ⟨kv, hkv, hmatch⟩ := hp
  rcases kv with ⟨k, v⟩
  cases v <;> simp only [Option.some.injEq, reduceCtorEq] at hmatch
  subst hmatch
  exact hkv

lemma sizesOk_destruct (e : Envelope) (h : sizesOk e = true) :
    e.type_hash.bytes.length = 32
    ∧ (∀ n ∈ e.type_name, n.length < 4294967296)
    ∧ e.relationships.length < 4294967296
    ∧ (∀ r ∈ e.relationships, r.rel_type.length < 4294967296 ∧ r.target.bytes.length = 32)
    ∧ e.index.length < 4294967296
    ∧ (∀ kv ∈ e.index, kv.1.length < 4294967296 ∧
        (∀ s, kv.2 = IndexValue.string s → s.length < 4294967296))
    ∧ (∀ hp ∈ e.previous, hp.bytes.length = 32)
    ∧ (∀ ts ∈ e.created_at, -9223372036854775808 ≤ ts ∧ ts < 9223372036854775808)
    ∧ e.payload.length < 4294967296 := by
  simp only [sizesOk, Bool.and_eq_true, beq_iff_eq, List.all_eq_true, decide_eq_true_eq] at h
  obtain ⟨⟨⟨⟨⟨⟨⟨⟨hth, htn⟩, hrc⟩, hrels⟩, hic⟩, hidx⟩, hprev⟩, hcat⟩, hpl⟩ := h
  refine ⟨hth, ?_, hrc, ?_, hic, ?_, ?_, ?_, hpl⟩
  · intro n hn
    rw [Option.mem_def] at hn
    rw [hn] at htn
    simpa using htn
  · intro r hr
    exact hrels r hr
  · intro kv hkv
    have := hidx kv hkv
    simp only [Bool.and_eq_true, beq_iff_eq, decide_eq_true_eq] at this
    refine ⟨this.1, ?_⟩
    intro s hs
    have h2 := this.2
    rw [hs] at h2
    simpa using h2
  · intro hp hhp
    rw [Option.mem_def] at hhp
    rw [hhp] at hprev
    simpa using hprev
  · intro ts hts
    rw [Option.mem_def] at hts
    rw [hts] at hcat
    simp only [Bool.and_eq_true, decide_eq_true_eq] at hcat
    exact hcat

lemma readStr_zero (rest : List Nat) : readStr (u32le 0 ++ rest) = some ([], rest) := by
  have h := readStr_exact [] rest (by norm_num)
  simpa using h

set_option maxHeartbeats 3200000 in
lemma deserialize_serialize (e : Envelope) (h : sizesOk e = true) :
    Store.deserialize (Store.serialize e) = some (decodedEnvelope e) := by
  obtain ⟨hth, htn, hrc, hrels, hic, hidx, hprev, hcat, hpl⟩ := sizesOk_destruct e h
  have hcount : (stringIndex e.index).length < 4294967296 :=
    lt_of_le_of_lt (List.length_filterMap_le _ _) hic
  have hpairs : ∀ p ∈ stringIndex e.index, p.1.length < 4294967296 ∧ p.2.length < 4294967296 := by
    intro p hp
    have hmem := stringIndex_mem hp
    have h2 := hidx _ hmem
    exact ⟨h2.1, h2.2 p.2 rfl⟩
  obtain ⟨th, tn, rels, idx, prev, cat, pl⟩ := e
  simp only at hth htn hrc hrels hic hidx hprev hcat hpl hcount hpairs
  rcases prev with _ | ph <;> rcases cat with _ | ts <;> rcases tn with _ | name
  all_goals rw [Store.serialize]
  all_goals simp only [List.append_assoc, List.cons_append, List.nil_append]
  all_goals rw [Store.deserialize]
  all_goals rw [readHash_exact th _ hth]
  all_goals simp only [Option.bind_eq_bind, Option.some_bind]
  all_goals first
    | rw [readStr_zero]
    | rw [readStr_exact name _ (htn name rfl)]
  all_goals simp only [Option.some_bind]
  all_goals rw [readU32_exact rels.length _ hrc]
  all_goals simp only [Option.some_bind]
  all_goals rw [readRels_exact rels _ hrels]
  all_goals simp only [Option.some_bind]
  all_goals rw [readU32_exact (stringIndex idx).length _ hcount]
  all_goals simp only [Option.some_bind]
  all_goals rw [readIdx_exact (stringIndex idx) _ hpairs]
  all_goals simp only [Option.some_bind]
  all_goals rw [takeN_one]
  all_goals simp only [Option.some_bind]
  all_goals first
    | (rw [if_neg (show ¬(([0] : List Nat) = [1]) from by decide)]
       try simp only [Option.pure_def, Option.some_bind])
    | (simp only [if_true]
       rw [readHash_exact ph _ (hprev ph rfl)]
       try simp only [Option.map_some', Option.some_bind])
  all_goals rw [takeN_one]
  all_goals simp only [Option.some_bind]
  all_goals first
    | (rw [if_neg (show ¬(([0] : List Nat) = [1]) from by decide)]
       try simp only [Option.pure_def, Option.some_bind])
    | (simp only [if_true]
       rw [readI64_exact ts _ (hcat ts rfl).1 (hcat ts rfl).2]
       try simp only [Option.map_some', Option.some_bind])
  all_goals rw [readU32_exact pl.length _ hpl]
  all_goals simp only [Option.some_bind]
  all_goals rw [takeN_all]
  all_goals simp only [Option.some_bind, Option.pure_def]
  all_goals try rcases name with _ | ⟨c, cs⟩
  all_goals simp [decodedEnvelope, decodedIndex]

/-! ### Claim C3: round trip -/

lemma mapInsert_of_not_mem {k : List Nat} {v : IndexValue}
    {m : List (List Nat × IndexValue)} (h : k ∉ m.map Prod.fst) :
    mapInsert k v m = m ++ [(k, v)] := by
  induction m with
  | nil => rfl
  | cons q m ih =>
    simp only [List.map_cons, List.mem_cons] at h
    push_neg at h
    rw [mapInsert, if_neg (fun hq => h.1 hq.symm), ih h.2]
    rfl

lemma foldl_mapInsert_append : ∀ (ps : List (List Nat × List Nat))
    (acc : List (List Nat × IndexValue)),
    (∀ p ∈ ps, p.1 ∉ acc.map Prod.fst) → (ps.map Prod.fst).Nodup →
    ps.foldl (fun m kv => mapInsert kv.1 (IndexValue.string kv.2) m) acc
      = acc ++ ps.map (fun kv => (kv.1, IndexValue.string kv.2)) := by
  intro ps
  induction ps with
  | nil => intro acc _ _; simp
  | cons p ps ih =>
    intro acc hdisj hnd
    simp only [List.map_cons, List.nodup_cons] at hnd
    rw [List.foldl_cons, mapInsert_of_not_mem (hdisj p (List.mem_cons_self p ps))]
    rw [ih (acc ++ [(p.1, IndexValue.string p.2)]) ?_ hnd.2]
    · simp
    · intro q hq
      simp only [List.map_append, List.mem_append, List.map_cons]
      push_neg
      refine ⟨hdisj q (List.mem_cons_of_mem p hq), ?_⟩
      simp only [List.map_nil, List.mem_singleton]
      intro hqp
      exact hnd.1 (hqp ▸ List.mem_map_of_mem Prod.fst hq)

lemma stringIndex_map_of_all_string : ∀ (idx : List (List Nat × IndexValue)),
    (idx.all fun kv => match kv.2 with | .string _ => true | _ => false) = true →
    (stringIndex idx).map (fun kv => (kv.1, IndexValue.string kv.2)) = idx
      ∧ (stringIndex idx).map Prod.fst = idx.map Prod.fst := by
  intro idx
  induction idx with
  | nil => intro _; exact ⟨rfl, rfl⟩
  | cons kv idx ih =>
    intro h
    simp only [List.all_cons, Bool.and_eq_true] at h
    rcases kv with ⟨k, v⟩
    cases v <;> simp only at h <;> [skip; exact absurd h.1 (by simp);
      exact absurd h.1 (by simp); exact absurd h.1 (by simp);
      exact absurd h.1 (by simp); exact absurd h.1 (by simp)]
    obtain ⟨h1, h2⟩ := ih h.2
    constructor
    · simp only [stringIndex, List.filterMap_cons]
      simpa using h1
    · simp only [stringIndex, List.filterMap_cons]
      simpa using h2

lemma decodedIndex_eq (e : Envelope) (hstr : allStringIndex e = true) (hnd : keysNodup e) :
    decodedIndex e = e.index := by
  obtain ⟨h1, h2⟩ := stringIndex_map_of_all_string e.index hstr
  unfold decodedIndex
  rw [foldl_mapInsert_append (stringIndex e.index) [] (by simp) (by rw [h2]; exact hnd)]
  simpa using h1

/-- C3 (amended): the round trip holds field-for-field for envelopes whose
index values are all `String` and whose `type_name` is not the empty string;
(non-`String` index entries are dropped by the encoder — `C3_counterexample` —
and `type_name = Some("")` decodes as `None`). -/
theorem C3_roundtrip (e : Envelope) (hsz : sizesOk e = true)
    (hstr : allStringIndex e = true) (hnd : keysNodup e)
    (hname : e.type_name ≠ some []) :
    Store.deserialize (Store.serialize e) = some e := by
  rw [deserialize_serialize e hsz]
  congr 1
  rw [decodedEnvelope, decodedIndex_eq e hstr hnd]
  obtain ⟨th, tn, rels, idx, prev, cat, pl⟩ := e
  rcases tn with _ | name
  · rfl
  · rcases name with _ | ⟨c, cs⟩
    · exact absurd rfl hname
    · rfl

/-- C3 witness: a full-featured all-`String`-index envelope round-trips
exactly. -/
theorem C3_witness : Store.deserialize (Store.serialize eWit) = some eWit :=
  C3_roundtrip eWit (by decide) (by decide) (by decide) (by decide)

/-! ### Claims C6/C7: store lemmas -/

lemma mapFind_mapInsert {K V : Type} [DecidableEq K] (k k' : K) (v : V) (m : List (K × V)) :
    mapFind k' (mapInsert k v m) = if k' = k then some v else mapFind k' m := by
  induction m with
  | nil =>
    simp only [mapInsert, mapFind]
    by_cases h1 : k = k'
    · rw [if_pos h1, if_pos h1.symm]
    · rw [if_neg h1, if_neg (fun hh : k' = k => h1 hh.symm)]
  | cons q m ih =>
    rcases q with ⟨k0, v0⟩
    by_cases h0 : k0 = k
    · rw [mapInsert, if_pos h0]
      subst h0
      simp only [mapFind]
      by_cases h1 : k0 = k'
      · rw [if_pos h1, if_pos h1.symm]
      · rw [if_neg h1, if_neg (fun hh : k' = k0 => h1 hh.symm), if_neg h1]
    · rw [mapInsert, if_neg h0]
      simp only [mapFind]
      by_cases h1 : k0 = k'
      · rw [if_pos h1, if_neg (fun hh : k' = k => h0 (h1.trans hh)), if_pos h1]
      · rw [if_neg h1, if_neg h1, ih]

lemma length_mapInsert {K V : Type} [DecidableEq K] (k : K) (v : V) (m : List (K × V)) :
    (mapInsert k v m).length =
      if (mapFind k m).isSome then m.length else m.length + 1 := by
  induction m with
  | nil => simp [mapInsert, mapFind]
  | cons q m ih =>
    rcases q with ⟨k0, v0⟩
    by_cases h0 : k0 = k
    · rw [mapInsert, if_pos h0]
      simp only [mapFind, if_pos h0]
      simp
    · rw [mapInsert, if_neg h0]
      simp only [mapFind, if_neg h0]
      simp only [List.length_cons, ih]
      by_cases h1 : (mapFind k m).isSome
      · rw [if_pos h1, if_pos h1]
      · rw [if_neg h1, if_neg h1]

/-- C6: two envelopes with byte-identical canonical encodings: both `put`
calls return the same digest, and starting from a store not yet holding that
digest, two successive `put`s grow `len` by exactly one — one stored copy. -/
theorem C6_dedup (s : Store) (e1 e2 : Envelope)
    (henc : Store.serialize e1 = Store.serialize e2)
    (habs : s.contains (putDigest e1) = false) :
    (s.put e1).1 = ((s.put e1).2.put e2).1 ∧
    ((s.put e1).2.put e2).2.len = s.len + 1 := by
  have hd : putDigest e1 = putDigest e2 := congrArg Hash256.hash henc
  constructor
  · exact hd
  · show (mapInsert (putDigest e2) (Store.serialize e2)
      (mapInsert (putDigest e1) (Store.serialize e1) s.objects)).length = s.objects.length + 1
    rw [← hd, ← henc, length_mapInsert, mapFind_mapInsert, if_pos rfl]
    simp only [Option.isSome_some, if_true]
    rw [length_mapInsert]
    have : (mapFind (putDigest e1) s.objects).isSome = false := habs
    rw [this]
    simp

/-- C6 witness: `eInt1` and `eInt2` are distinct envelopes with identical
encodings; both puts return one digest and the store ends with one entry. -/
theorem C6_witness :
    (Store.new.put eInt1).1 = ((Store.new.put eInt1).2.put eInt2).1 ∧
    ((Store.new.put eInt1).2.put eInt2).2.len = Store.new.len + 1 :=
  C6_dedup Store.new eInt1 eInt2 (by decide) rfl

/-! ### Claim C7: NotFound contract -/

lemma putAll_cons (s : Store) (e : Envelope) (es : List Envelope) :
    Store.putAll s (e :: es) = Store.putAll (s.put e).2 es := rfl

lemma put_objects (s : Store) (e : Envelope) :
    ((s.put e).2).objects = mapInsert (putDigest e) (Store.serialize e) s.objects := rfl

lemma mapFind_putAll_none : ∀ (es : List Envelope) (s : Store) (d : Hash256),
    mapFind d s.objects = none → d ∉ es.map putDigest →
    mapFind d (Store.putAll s es).objects = none := by
  intro es
  induction es with
  | nil => intro s d h _; exact h
  | cons e es ih =>
    intro s d h hmem
    simp only [List.map_cons, List.mem_cons] at hmem
    push_neg at hmem
    rw [putAll_cons]
    refine ih _ d ?_ hmem.2
    rw [put_objects, mapFind_mapInsert, if_neg hmem.1, h]

lemma mapFind_putAll_isSome : ∀ (es : List Envelope) (s : Store) (d : Hash256),
    ((mapFind d s.objects).isSome = true ∨ d ∈ es.map putDigest) →
    (mapFind d (Store.putAll s es).objects).isSome = true := by
  intro es
  induction es with
  | nil =>
    intro s d h
    rcases h with h | h
    · exact h
    · simp at h
  | cons e es ih =>
    intro s d h
    rw [putAll_cons]
    refine ih _ d ?_
    simp only [List.map_cons, List.mem_cons] at h
    by_cases hd : d = putDigest e
    · left
      rw [put_objects, mapFind_mapInsert, if_pos hd]
      rfl
    · rcases h with h | h
      · left
        rw [put_objects, mapFind_mapInsert, if_neg hd]
        exact h
      · rcases h with h | h
        · exact absurd h hd
        · right; exact h

lemma goodStore_new : GoodStore Store.new := by
  intro d bs h
  simp [Store.new, mapFind] at h

lemma goodStore_putAll : ∀ (es : List Envelope) (s : Store),
    GoodStore s → (∀ e ∈ es, sizesOk e = true) → GoodStore (Store.putAll s es) := by
  intro es
  induction es with
  | nil => intro s hs _; exact hs
  | cons e es ih =>
    intro s hs hwf
    rw [putAll_cons]
    refine ih _ ?_ (fun e' he' => hwf e' (List.mem_cons_of_mem e he'))
    intro d bs hfind
    rw [put_objects, mapFind_mapInsert] at hfind
    by_cases hd : d = putDigest e
    · rw [if_pos hd] at hfind
      injection hfind with hbs
      exact ⟨e, hbs.symm, hwf e (List.mem_cons_self e es)⟩
    · rw [if_neg hd] at hfind
      exact hs d bs hfind

/-- C7: building a store by a sequence of `put`s from `new`: `get` on any
digest never returned by a `put` yields the `NotFound` error carrying the
digest's hex form (never a default envelope), and `get` on any digest some
`put` returned succeeds. -/
theorem C7_notfound (es : List Envelope) (d : Hash256)
    (hwf : ∀ e ∈ es, sizesOk e = true) :
    (d ∉ es.map putDigest →
      Store.get (Store.putAll Store.new es) d
        = some (Except.error (Error.notFound d.to_hex)))
    ∧ (d ∈ es.map putDigest →
      ∃ env, Store.get (Store.putAll Store.new es) d = some (Except.ok env)) := by
  constructor
  · intro hmem
    have h := mapFind_putAll_none es Store.new d rfl hmem
    simp only [Store.get, h]
  · intro hmem
    have hsome := mapFind_putAll_isSome es Store.new d (Or.inr hmem)
    obtain ⟨bs, hbs⟩ := Option.isSome_iff_exists.1 hsome
    obtain ⟨e, hbe, hesz⟩ := goodStore_putAll es Store.new goodStore_new hwf d bs hbs
    refine ⟨decodedEnvelope e, ?_⟩
    simp only [Store.get, hbs, hbe, deserialize_serialize e hesz]
    rfl

/-- C7 witness: after putting the minimal envelope, `get` of an unrelated
digest is `NotFound` and `get` of the returned digest succeeds. -/
theorem C7_witness :
    Store.get (Store.putAll Store.new [eMin]) hOne
      = some (Except.error (Error.notFound hOne.to_hex))
    ∧ ∃ env, Store.get (Store.putAll Store.new [eMin]) (putDigest eMin)
      = some (Except.ok env) :=
  ⟨(C7_notfound [eMin] hOne (by decide)).1 (by decide),
   (C7_notfound [eMin] (putDigest eMin) (by decide)).2
     (by exact List.mem_cons_self _ _)⟩

/-! ### Claim C9: reverse-index symmetry -/

lemma mapFind_mapUpdate {K V : Type} [DecidableEq K] (k k' : K) (dflt : V) (f : V → V)
    (m : List (K × V)) :
    mapFind k' (mapUpdate k dflt f m)
      = if k' = k then some (f ((mapFind k m).getD dflt)) else mapFind k' m := by
  induction m with
  | nil =>
    simp only [mapUpdate, mapFind]
    by_cases h1 : k = k'
    · rw [if_pos h1, if_pos h1.symm]
      simp
    · rw [if_neg h1, if_neg (fun hh : k' = k => h1 hh.symm)]
  | cons q m ih =>
    rcases q with ⟨k0, v0⟩
    by_cases h0 : k0 = k
    · rw [mapUpdate, if_pos h0]
      subst h0
      simp only [mapFind]
      by_cases h1 : k0 = k'
      · rw [if_pos h1, if_pos h1.symm]
        simp
      · rw [if_neg h1, if_neg (fun hh : k' = k0 => h1 hh.symm), if_neg h1]
    · rw [mapUpdate, if_neg h0]
      simp only [mapFind]
      by_cases h1 : k0 = k'
      · rw [if_pos h1, if_neg (fun hh : k' = k => h0 (h1.trans hh)), if_pos h1]
      · rw [if_neg h1, if_neg h1, ih, if_neg h0]

lemma mapFind_mapModify {K V : Type} [DecidableEq K] (k k' : K) (f : V → V)
    (m : List (K × V)) :
    mapFind k' (mapModify k f m)
      = if k' = k then (mapFind k m).map f else mapFind k' m := by
  induction m with
  | nil =>
    simp only [mapModify, mapFind]
    by_cases h1 : k' = k
    · rw [if_pos h1]
      simp
    · rw [if_neg h1]
  | cons q m ih =>
    rcases q with ⟨k0, v0⟩
    by_cases h0 : k0 = k
    · rw [mapModify, if_pos h0]
      subst h0
      simp only [mapFind]
      by_cases h1 : k0 = k'
      · rw [if_pos h1, if_pos h1.symm]
        simp
      · rw [if_neg h1, if_neg (fun hh : k' = k0 => h1 hh.symm), if_neg h1]
    · rw [mapModify, if_neg h0]
      simp only [mapFind]
      by_cases h1 : k0 = k'
      · rw [if_pos h1, if_neg (fun hh : k' = k => h0 (h1.trans hh)), if_pos h1]
      · rw [if_neg h1, if_neg h1, ih, if_neg h0]

lemma mem_setInsert {α : Type} [DecidableEq α] (x y : α) (s : List α) :
    x ∈ setInsert y s ↔ x = y ∨ x ∈ s := by
  unfold setInsert
  by_cases h : y ∈ s
  · rw [if_pos h]
    constructor
    · exact Or.inr
    · rintro (rfl | hx)
      · exact h
      · assumption
  · rw [if_neg h]
    simp [List.mem_cons]

lemma not_mem_setRemove {α : Type} [DecidableEq α] (x : α) (s : List α) :
    x ∉ setRemove x s := by
  unfold setRemove
  simp

lemma not_mem_setRemove_of_not_mem {α : Type} [DecidableEq α] {x y : α} {s : List α}
    (h : x ∉ s) : x ∉ setRemove y s :=
  fun hx => h (List.mem_of_mem_filter hx)

lemma self_mem_setInsert {α : Type} [DecidableEq α] (x : α) (s : List α) :
    x ∈ setInsert x s :=
  (mem_setInsert x x s).2 (Or.inl rfl)

lemma mem_setInsert_of_mem {α : Type} [DecidableEq α] {x : α} (y : α) {s : List α}
    (h : x ∈ s) : x ∈ setInsert y s :=
  (mem_setInsert x y s).2 (Or.inr h)

lemma addFieldStep_by_relationship (h : Hash256) (idx : Index)
    (kv : List Nat × IndexValue) :
    (addFieldStep h idx kv).by_relationship = idx.by_relationship := by
  unfold addFieldStep
  rcases kv with ⟨k, v⟩
  cases v <;> rfl

lemma addFieldStep_references_to (h : Hash256) (idx : Index)
    (kv : List Nat × IndexValue) :
    (addFieldStep h idx kv).references_to = idx.references_to := by
  unfold addFieldStep
  rcases kv with ⟨k, v⟩
  cases v <;> rfl

lemma removeFieldStep_by_relationship (h : Hash256) (idx : Index)
    (kv : List Nat × IndexValue) :
    (removeFieldStep h idx kv).by_relationship = idx.by_relationship := by
  unfold removeFieldStep
  rcases kv with ⟨k, v⟩
  cases v <;> rfl

lemma removeFieldStep_references_to (h : Hash256) (idx : Index)
    (kv : List Nat × IndexValue) :
    (removeFieldStep h idx kv).references_to = idx.references_to := by
  unfold removeFieldStep
  rcases kv with ⟨k, v⟩
  cases v <;> rfl

lemma queryByRelationship_addRelStep_self (h : Hash256) (idx : Index) (r : Relationship) :
    h ∈ (addRelStep h idx r).queryByRelationship r.rel_type r.target := by
  unfold addRelStep Index.queryByRelationship
  simp only [mapFind_mapUpdate, if_pos rfl, Option.some_bind]
  simp [mapFind_mapUpdate, self_mem_setInsert]

lemma queryReferencesTo_addRelStep_self (h : Hash256) (idx : Index) (r : Relationship) :
    h ∈ (addRelStep h idx r).queryReferencesTo r.target := by
  unfold addRelStep Index.queryReferencesTo
  simp only [mapFind_mapUpdate, if_pos rfl]
  simp [self_mem_setInsert]

lemma queryByRelationship_addRelStep_mono {d : Hash256} (h : Hash256) (idx : Index)
    (r : Relationship) (rt : List Nat) (tgt : Hash256)
    (hd : d ∈ idx.queryByRelationship rt tgt) :
    d ∈ (addRelStep h idx r).queryByRelationship rt tgt := by
  unfold addRelStep Index.queryByRelationship at *
  simp only [mapFind_mapUpdate]
  by_cases h1 : rt = r.rel_type
  · rw [if_pos h1]
    simp only [Option.some_bind, mapFind_mapUpdate]
    by_cases h2 : tgt = r.target
    · rw [if_pos h2]
      rw [h1] at hd
      simp only [Option.getD_some]
      refine mem_setInsert_of_mem h ?_
      rcases hfind : mapFind r.rel_type idx.by_relationship with _ | inner
      · rw [hfind] at hd
        simp at hd
      · rw [hfind] at hd
        simp only [Option.some_bind] at hd
        rw [h2] at hd
        simp only [Option.getD_some, hfind]
        rcases hfind2 : mapFind r.target inner with _ | bucket
        · rw [hfind2] at hd
          simp at hd
        · rw [hfind2] at hd
          simpa using hd
    · rw [if_neg h2]
      rw [h1] at hd
      rcases hfind : mapFind r.rel_type idx.by_relationship with _ | inner
      · rw [hfind] at hd
        simp at hd
      · rw [hfind] at hd
        simpa using hd
  · rw [if_neg h1]
    exact hd

lemma queryReferencesTo_addRelStep_mono {d : Hash256} (h : Hash256) (idx : Index)
    (r : Relationship) (tgt : Hash256)
    (hd : d ∈ idx.queryReferencesTo tgt) :
    d ∈ (addRelStep h idx r).queryReferencesTo tgt := by
  unfold addRelStep Index.queryReferencesTo at *
  simp only [mapFind_mapUpdate]
  by_cases h1 : tgt = r.target
  · rw [if_pos h1]
    rw [h1] at hd
    simp only [Option.getD_some]
    refine mem_setInsert_of_mem h ?_
    rcases hfind : mapFind r.target idx.references_to with _ | bucket
    · rw [hfind] at hd
      simp at hd
    · rw [hfind] at hd
      simpa using hd
  · rw [if_neg h1]
    exact hd

lemma queryByRelationship_removeRelStep_self (h : Hash256) (idx : Index)
    (r : Relationship) :
    h ∉ (removeRelStep h idx r).queryByRelationship r.rel_type r.target := by
  unfold removeRelStep Index.queryByRelationship
  rcases hfind : mapFind r.rel_type idx.by_relationship with _ | inner
  · simp [mapFind_mapModify, hfind]
  · rcases hfind2 : mapFind r.target inner with _ | bucket
    · simp [mapFind_mapModify, hfind, hfind2]
    · simp [mapFind_mapModify, hfind, hfind2, not_mem_setRemove]

lemma queryReferencesTo_removeRelStep_self (h : Hash256) (idx : Index)
    (r : Relationship) :
    h ∉ (removeRelStep h idx r).queryReferencesTo r.target := by
  unfold removeRelStep Index.queryReferencesTo
  rcases hfind : mapFind r.target idx.references_to with _ | bucket
  · simp [mapFind_mapModify, hfind]
  · simp [mapFind_mapModify, hfind, not_mem_setRemove]

lemma mem_of_mem_removeRelStep_byRel {d h : Hash256} {idx : Index} {r : Relationship}
    {rt : List Nat} {tgt : Hash256}
    (hm : d ∈ (removeRelStep h idx r).queryByRelationship rt tgt) :
    d ∈ idx.queryByRelationship rt tgt := by
  unfold removeRelStep at hm
  unfold Index.queryByRelationship at hm ⊢
  by_cases h1 : rt = r.rel_type
  · subst h1
    rcases hfind : mapFind r.rel_type idx.by_relationship with _ | inner
    · simp [mapFind_mapModify, hfind] at hm
    · simp only [Option.some_bind]
      simp [mapFind_mapModify, hfind] at hm
      by_cases h2 : tgt = r.target
      · subst h2
        rcases hfind2 : mapFind r.target inner with _ | bucket
        · simp [mapFind_mapModify, hfind2] at hm
        · simp [mapFind_mapModify, hfind2] at hm
          simp only [hfind2, Option.getD_some]
          exact List.mem_of_mem_filter hm
      · simp [mapFind_mapModify, h2] at hm
        exact hm
  · simp [mapFind_mapModify, h1] at hm
    exact hm

lemma mem_of_mem_removeRelStep_refs {d h : Hash256} {idx : Index} {r : Relationship}
    {tgt : Hash256}
    (hm : d ∈ (removeRelStep h idx r).queryReferencesTo tgt) :
    d ∈ idx.queryReferencesTo tgt := by
  unfold removeRelStep at hm
  unfold Index.queryReferencesTo at hm ⊢
  by_cases h1 : tgt = r.target
  · subst h1
    rcases hfind : mapFind r.target idx.references_to with _ | bucket
    · simp [mapFind_mapModify, hfind] at hm
    · simp [mapFind_mapModify, hfind] at hm
      simp only [hfind, Option.getD_some]
      exact List.mem_of_mem_filter hm
  · simp [mapFind_mapModify, h1] at hm
    exact hm

lemma fold_addRelStep_byRel_mono (h d : Hash256) (rt : List Nat) (tgt : Hash256) :
    ∀ (rs : List Relationship) (idx : Index),
    d ∈ idx.queryByRelationship rt tgt →
    d ∈ ((rs.foldl (addRelStep h) idx).queryByRelationship rt tgt) := by
  intro rs
  induction rs with
  | nil => intro idx hd; exact hd
  | cons r rs ih =>
    intro idx hd
    rw [List.foldl_cons]
    exact ih _ (queryByRelationship_addRelStep_mono h idx r rt tgt hd)

lemma fold_addRelStep_refs_mono (h d : Hash256) (tgt : Hash256) :
    ∀ (rs : List Relationship) (idx : Index),
    d ∈ idx.queryReferencesTo tgt →
    d ∈ ((rs.foldl (addRelStep h) idx).queryReferencesTo tgt) := by
  intro rs
  induction rs with
  | nil => intro idx hd; exact hd
  | cons r rs ih =>
    intro idx hd
    rw [List.foldl_cons]
    exact ih _ (queryReferencesTo_addRelStep_mono h idx r tgt hd)

lemma fold_addRelStep_byRel_mem (h : Hash256) :
    ∀ (rs : List Relationship) (idx : Index) (r : Relationship), r ∈ rs →
    h ∈ ((rs.foldl (addRelStep h) idx).queryByRelationship r.rel_type r.target) := by
  intro rs
  induction rs with
  | nil => intro idx r hr; simp at hr
  | cons r0 rs ih =>
    intro idx r hr
    rw [List.foldl_cons]
    rcases List.mem_cons.1 hr with rfl | hr2
    · exact fold_addRelStep_byRel_mono h h r.rel_type r.target rs _
        (queryByRelationship_addRelStep_self h idx r)
    · exact ih _ r hr2

lemma fold_addRelStep_refs_mem (h : Hash256) :
    ∀ (rs : List Relationship) (idx : Index) (r : Relationship), r ∈ rs →
    h ∈ ((rs.foldl (addRelStep h) idx).queryReferencesTo r.target) := by
  intro rs
  induction rs with
  | nil => intro idx r hr; simp at hr
  | cons r0 rs ih =>
    intro idx r hr
    rw [List.foldl_cons]
    rcases List.mem_cons.1 hr with rfl | hr2
    · exact fold_addRelStep_refs_mono h h r.target rs _
        (queryReferencesTo_addRelStep_self h idx r)
    · exact ih _ r hr2

lemma fold_removeRelStep_byRel_not_mem (h : Hash256) (rt : List Nat) (tgt : Hash256) :
    ∀ (rs : List Relationship) (idx : Index),
    h ∉ idx.queryByRelationship rt tgt →
    h ∉ ((rs.foldl (removeRelStep h) idx).queryByRelationship rt tgt) := by
  intro rs
  induction rs with
  | nil => intro idx hd; exact hd
  | cons r rs ih =>
    intro idx hd
    rw [List.foldl_cons]
    exact ih _ (fun hm => hd (mem_of_mem_removeRelStep_byRel hm))

lemma fold_removeRelStep_refs_not_mem (h : Hash256) (tgt : Hash256) :
    ∀ (rs : List Relationship) (idx : Index),
    h ∉ idx.queryReferencesTo tgt →
    h ∉ ((rs.foldl (removeRelStep h) idx).queryReferencesTo tgt) := by
  intro rs
  induction rs with
  | nil => intro idx hd; exact hd
  | cons r rs ih =>
    intro idx hd
    rw [List.foldl_cons]
    exact ih _ (fun hm => hd (mem_of_mem_removeRelStep_refs hm))

lemma fold_removeRelStep_byRel_self (h : Hash256) :
    ∀ (rs : List Relationship) (idx : Index) (r : Relationship), r ∈ rs →
    h ∉ ((rs.foldl (removeRelStep h) idx).queryByRelationship r.rel_type r.target) := by
  intro rs
  induction rs with
  | nil => intro idx r hr; simp at hr
  | cons r0 rs ih =>
    intro idx r hr
    rw [List.foldl_cons]
    rcases List.mem_cons.1 hr with rfl | hr2
    · exact fold_removeRelStep_byRel_not_mem h r.rel_type r.target rs _
        (queryByRelationship_removeRelStep_self h idx r)
    · exact ih _ r hr2

lemma fold_removeRelStep_refs_self (h : Hash256) :
    ∀ (rs : List Relationship) (idx : Index) (r : Relationship), r ∈ rs →
    h ∉ ((rs.foldl (removeRelStep h) idx).queryReferencesTo r.target) := by
  intro rs
  induction rs with
  | nil => intro idx r hr; simp at hr
  | cons r0 rs ih =>
    intro idx r hr
    rw [List.foldl_cons]
    rcases List.mem_cons.1 hr with rfl | hr2
    · exact fold_removeRelStep_refs_not_mem h r.target rs _
        (queryReferencesTo_removeRelStep_self h idx r)
    · exact ih _ r hr2

/-- C9: for any prior index state, after `Index::add(S, e)` every
relationship `(rt, tgt)` of `e` yields `S` in both `by_relationship(rt,
tgt)` and `references_to(tgt)`; after a subsequent `Index::remove(S, e)`
with the same envelope, neither contains `S`. -/
theorem C9_reverse_index (idx : Index) (S : Hash256) (e : Envelope) (rt : List Nat)
    (tgt : Hash256) (hrel : (⟨rt, tgt⟩ : Relationship) ∈ e.relationships) :
    (S ∈ (idx.add S e).queryByRelationship rt tgt
      ∧ S ∈ (idx.add S e).queryReferencesTo tgt)
    ∧ (S ∉ ((idx.add S e).remove S e).queryByRelationship rt tgt
      ∧ S ∉ ((idx.add S e).remove S e).queryReferencesTo tgt) := by
  refine ⟨⟨?_, ?_⟩, ?_, ?_⟩
  · exact fold_addRelStep_byRel_mem S e.relationships _ ⟨rt, tgt⟩ hrel
  · exact fold_addRelStep_refs_mem S e.relationships _ ⟨rt, tgt⟩ hrel
  · exact fold_removeRelStep_byRel_self S e.relationships _ ⟨rt, tgt⟩ hrel
  · exact fold_removeRelStep_refs_self S e.relationships _ ⟨rt, tgt⟩ hrel

/-- C9 witness: a concrete index, source digest and envelope with
relationship `("a", hZero)`. -/
theorem C9_witness :
    (hZero ∈ ((Index.new.add hZero eWit).queryByRelationship [97] hZero)
      ∧ hZero ∈ ((Index.new.add hZero eWit).queryReferencesTo hZero))
    ∧ (hZero ∉ (((Index.new.add hZero eWit).remove hZero eWit).queryByRelationship [97] hZero)
      ∧ hZero ∉ (((Index.new.add hZero eWit).remove hZero eWit).queryReferencesTo hZero)) :=
  C9_reverse_index Index.new hZero eWit [97] hZero (by decide)

/-! ### Claim C8: store-index facade consistency -/

lemma addFieldStep_by_type (h : Hash256) (idx : Index) (kv : List Nat × IndexValue) :
    (addFieldStep h idx kv).by_type = idx.by_type := by
  unfold addFieldStep
  rcases kv with ⟨k, v⟩
  cases v <;> rfl

lemma addRelStep_by_type (h : Hash256) (idx : Index) (r : Relationship) :
    (addRelStep h idx r).by_type = idx.by_type := rfl

lemma addRelStep_by_string_field (h : Hash256) (idx : Index) (r : Relationship) :
    (addRelStep h idx r).by_string_field = idx.by_string_field := rfl

lemma fold_addFieldStep_by_type (h : Hash256) :
    ∀ (l : List (List Nat × IndexValue)) (idx : Index),
    (l.foldl (addFieldStep h) idx).by_type = idx.by_type := by
  intro l
  induction l with
  | nil => intro idx; rfl
  | cons kv l ih =>
    intro idx
    rw [List.foldl_cons, ih, addFieldStep_by_type]

lemma fold_addRelStep_by_type (h : Hash256) :
    ∀ (rs : List Relationship) (idx : Index),
    (rs.foldl (addRelStep h) idx).by_type = idx.by_type := by
  intro rs
  induction rs with
  | nil => intro idx; rfl
  | cons r rs ih =>
    intro idx
    rw [List.foldl_cons, ih, addRelStep_by_type]

lemma fold_addRelStep_by_string_field (h : Hash256) :
    ∀ (rs : List Relationship) (idx : Index),
    (rs.foldl (addRelStep h) idx).by_string_field = idx.by_string_field := by
  intro rs
  induction rs with
  | nil => intro idx; rfl
  | cons r rs ih =>
    intro idx
    rw [List.foldl_cons, ih, addRelStep_by_string_field]

lemma add_by_type (idx : Index) (h : Hash256) (e : Envelope) :
    (idx.add h e).by_type = mapUpdate e.type_hash [] (setInsert h) idx.by_type := by
  unfold Index.add
  rw [fold_addRelStep_by_type, fold_addFieldStep_by_type]

lemma queryByType_add_self (idx : Index) (h : Hash256) (e : Envelope) :
    h ∈ (idx.add h e).queryByType e.type_hash := by
  unfold Index.queryByType
  rw [add_by_type]
  simp [mapFind_mapUpdate, self_mem_setInsert]

lemma mem_queryByType_add {d : Hash256} {idx : Index} {h : Hash256} {e : Envelope}
    {t : Hash256} (hm : d ∈ (idx.add h e).queryByType t) :
    d = h ∨ d ∈ idx.queryByType t := by
  unfold Index.queryByType at *
  rw [add_by_type, mapFind_mapUpdate] at hm
  by_cases h1 : t = e.type_hash
  · rw [if_pos h1] at hm
    simp only [Option.getD_some] at hm
    rcases (mem_setInsert _ _ _).1 hm with rfl | hm2
    · exact Or.inl rfl
    · right
      rw [h1]
      exact hm2
  · rw [if_neg h1] at hm
    exact Or.inr hm

lemma queryByField_addFieldStep_self (h : Hash256) (idx : Index) (k v : List Nat) :
    h ∈ (addFieldStep h idx (k, IndexValue.string v)).queryByField k v := by
  unfold addFieldStep Index.queryByField
  simp [mapFind_mapUpdate, self_mem_setInsert]

lemma queryByField_addFieldStep_mono {d : Hash256} (h : Hash256) (idx : Index)
    (kv : List Nat × IndexValue) (k v : List Nat)
    (hd : d ∈ idx.queryByField k v) :
    d ∈ (addFieldStep h idx kv).queryByField k v := by
  unfold addFieldStep Index.queryByField at *
  rcases kv with ⟨k0, v0⟩
  cases v0 with
  | string s =>
    simp only [mapFind_mapUpdate]
    by_cases h1 : (k, v) = (k0, s)
    · rw [if_pos h1]
      simp only [Option.getD_some]
      refine mem_setInsert_of_mem h ?_
      rw [← h1]
      exact hd
    · rw [if_neg h1]
      exact hd
  | int64 w => exact hd
  | float64 w => exact hd
  | bool w => exact hd
  | hash w => exact hd
  | timestamp w => exact hd

lemma mem_queryByField_addFieldStep {d h : Hash256} {idx : Index}
    {kv : List Nat × IndexValue} {k v : List Nat}
    (hm : d ∈ (addFieldStep h idx kv).queryByField k v) :
    d = h ∨ d ∈ idx.queryByField k v := by
  unfold addFieldStep Index.queryByField at *
  rcases kv with ⟨k0, v0⟩
  cases v0 with
  | string s =>
    simp only [mapFind_mapUpdate] at hm
    by_cases h1 : (k, v) = (k0, s)
    · rw [if_pos h1] at hm
      simp only [Option.getD_some] at hm
      rcases (mem_setInsert _ _ _).1 hm with rfl | hm2
      · exact Or.inl rfl
      · right
        rw [h1]
        exact hm2
    · rw [if_neg h1] at hm
      exact Or.inr hm
  | int64 w => exact Or.inr hm
  | float64 w => exact Or.inr hm
  | bool w => exact Or.inr hm
  | hash w => exact Or.inr hm
  | timestamp w => exact Or.inr hm

lemma fold_addFieldStep_mono {d : Hash256} (h : Hash256) (k v : List Nat) :
    ∀ (l : List (List Nat × IndexValue)) (idx : Index),
    d ∈ idx.queryByField k v →
    d ∈ ((l.foldl (addFieldStep h) idx).queryByField k v) := by
  intro l
  induction l with
  | nil => intro idx hd; exact hd
  | cons kv l ih =>
    intro idx hd
    rw [List.foldl_cons]
    exact ih _ (queryByField_addFieldStep_mono h idx kv k v hd)

lemma fold_addFieldStep_mem (h : Hash256) (k v : List Nat) :
    ∀ (l : List (List Nat × IndexValue)) (idx : Index),
    (k, IndexValue.string v) ∈ l →
    h ∈ ((l.foldl (addFieldStep h) idx).queryByField k v) := by
  intro l
  induction l with
  | nil => intro idx hmem; simp at hmem
  | cons kv l ih =>
    intro idx hmem
    rw [List.foldl_cons]
    rcases List.mem_cons.1 hmem with rfl | hmem2
    · exact fold_addFieldStep_mono h k v l _ (queryByField_addFieldStep_self h idx k v)
    · exact ih _ hmem2

lemma mem_fold_addFieldStep {d h : Hash256} {k v : List Nat} :
    ∀ {l : List (List Nat × IndexValue)} {idx : Index},
    d ∈ ((l.foldl (addFieldStep h) idx).queryByField k v) →
    d = h ∨ d ∈ idx.queryByField k v := by
  intro l
  induction l with
  | nil => intro idx hm; exact Or.inr hm
  | cons kv l ih =>
    intro idx hm
    rw [List.foldl_cons] at hm
    rcases ih hm with h1 | h1
    · exact Or.inl h1
    · exact mem_queryByField_addFieldStep h1

lemma mem_queryReferencesTo_addRelStep {d h : Hash256} {idx : Index}
    {r : Relationship} {tgt : Hash256}
    (hm : d ∈ (addRelStep h idx r).queryReferencesTo tgt) :
    d = h ∨ d ∈ idx.queryReferencesTo tgt := by
  unfold addRelStep Index.queryReferencesTo at *
  simp only [mapFind_mapUpdate] at hm
  by_cases h1 : tgt = r.target
  · rw [if_pos h1] at hm
    simp only [Option.getD_some] at hm
    rcases (mem_setInsert _ _ _).1 hm with rfl | hm2
    · exact Or.inl rfl
    · right
      rw [h1]
      exact hm2
  · rw [if_neg h1] at hm
    exact Or.inr hm

lemma mem_fold_addRelStep_refs {d h : Hash256} {tgt : Hash256} :
    ∀ {rs : List Relationship} {idx : Index},
    d ∈ ((rs.foldl (addRelStep h) idx).queryReferencesTo tgt) →
    d = h ∨ d ∈ idx.queryReferencesTo tgt := by
  intro rs
  induction rs with
  | nil => intro idx hm; exact Or.inr hm
  | cons r rs ih =>
    intro idx hm
    rw [List.foldl_cons] at hm
    rcases ih hm with h1 | h1
    · exact Or.inl h1
    · exact mem_queryReferencesTo_addRelStep h1

lemma queryByField_congr {i1 i2 : Index} (hby : i1.by_string_field = i2.by_string_field)
    (k v : List Nat) : i1.queryByField k v = i2.queryByField k v := by
  unfold Index.queryByField
  rw [hby]

lemma queryRefs_congr {i1 i2 : Index} (hby : i1.references_to = i2.references_to)
    (tgt : Hash256) : i1.queryReferencesTo tgt = i2.queryReferencesTo tgt := by
  unfold Index.queryReferencesTo
  rw [hby]

lemma fold_addFieldStep_references_to (h : Hash256) :
    ∀ (l : List (List Nat × IndexValue)) (idx : Index),
    (l.foldl (addFieldStep h) idx).references_to = idx.references_to := by
  intro l
  induction l with
  | nil => intro idx; rfl
  | cons kv l ih =>
    intro idx
    rw [List.foldl_cons, ih, addFieldStep_references_to]

lemma mem_queryByField_add {d h : Hash256} {idx : Index} {e : Envelope}
    {k v : List Nat} (hm : d ∈ (idx.add h e).queryByField k v) :
    d = h ∨ d ∈ idx.queryByField k v := by
  unfold Index.add at hm
  rw [queryByField_congr (fold_addRelStep_by_string_field h e.relationships _) k v] at hm
  rcases mem_fold_addFieldStep hm with h1 | h1
  · exact Or.inl h1
  · exact Or.inr h1

lemma queryByField_add_mem (idx : Index) (h : Hash256) (e : Envelope) {k v : List Nat}
    (hmem : (k, IndexValue.string v) ∈ e.index) :
    h ∈ (idx.add h e).queryByField k v := by
  unfold Index.add
  rw [queryByField_congr (fold_addRelStep_by_string_field h e.relationships _) k v]
  exact fold_addFieldStep_mem h k v e.index _ hmem

lemma mem_queryReferencesTo_add {d h : Hash256} {idx : Index} {e : Envelope}
    {tgt : Hash256} (hm : d ∈ (idx.add h e).queryReferencesTo tgt) :
    d = h ∨ d ∈ idx.queryReferencesTo tgt := by
  unfold Index.add at hm
  rcases mem_fold_addRelStep_refs hm with h1 | h1
  · exact Or.inl h1
  · right
    rw [queryRefs_congr (fold_addFieldStep_references_to h e.index _) tgt] at h1
    exact h1

lemma queryReferencesTo_add_mem (idx : Index) (h : Hash256) (e : Envelope)
    {r : Relationship} (hr : r ∈ e.relationships) :
    h ∈ (idx.add h e).queryReferencesTo r.target :=
  fold_addRelStep_refs_mem h e.relationships _ r hr

lemma contains_put_self (s : Store) (e : Envelope) :
    (s.put e).2.contains (s.put e).1 = true := by
  show (mapFind (putDigest e)
    (mapInsert (putDigest e) (Store.serialize e) s.objects)).isSome = true
  rw [mapFind_mapInsert, if_pos rfl]
  rfl

lemma contains_put_mono {s : Store} {d : Hash256} (e : Envelope)
    (h : s.contains d = true) : (s.put e).2.contains d = true := by
  show (mapFind d (mapInsert (putDigest e) (Store.serialize e) s.objects)).isSome = true
  rw [mapFind_mapInsert]
  by_cases h1 : d = putDigest e
  · rw [if_pos h1]
    rfl
  · rw [if_neg h1]
    exact h

lemma consistent_new : StoreIndexConsistent IndexedStore.new := by
  refine ⟨?_, ?_, ?_⟩
  · intro t d hm
    simp [IndexedStore.query_by_type, Index.queryByType, IndexedStore.new, Index.new,
      mapFind] at hm
  · intro k v d hm
    simp [IndexedStore.query_by_field, Index.queryByField, IndexedStore.new, Index.new,
      mapFind] at hm
  · intro tgt d hm
    simp [IndexedStore.query_references_to, Index.queryReferencesTo, IndexedStore.new,
      Index.new, mapFind] at hm

lemma consistent_put {s : IndexedStore} (e : Envelope)
    (hc : StoreIndexConsistent s) : StoreIndexConsistent (s.put e).2 := by
  obtain ⟨h1, h2, h3⟩ := hc
  refine ⟨?_, ?_, ?_⟩
  · intro t d hm
    have hm2 : d ∈ (s.index.add (s.store.put e).1 e).queryByType t := hm
    rcases mem_queryByType_add hm2 with rfl | hmem
    · show (s.store.put e).2.contains (s.store.put e).1 = true
      exact contains_put_self s.store e
    · show (s.store.put e).2.contains d = true
      exact contains_put_mono e (h1 t d hmem)
  · intro k v d hm
    have hm2 : d ∈ (s.index.add (s.store.put e).1 e).queryByField k v := hm
    rcases mem_queryByField_add hm2 with rfl | hmem
    · show (s.store.put e).2.contains (s.store.put e).1 = true
      exact contains_put_self s.store e
    · show (s.store.put e).2.contains d = true
      exact contains_put_mono e (h2 k v d hmem)
  · intro tgt d hm
    have hm2 : d ∈ (s.index.add (s.store.put e).1 e).queryReferencesTo tgt := hm
    rcases mem_queryReferencesTo_add hm2 with rfl | hmem
    · show (s.store.put e).2.contains (s.store.put e).1 = true
      exact contains_put_self s.store e
    · show (s.store.put e).2.contains d = true
      exact contains_put_mono e (h3 tgt d hmem)

lemma consistent_putAll : ∀ (es : List Envelope) (s : IndexedStore),
    StoreIndexConsistent s → StoreIndexConsistent (IndexedStore.putAll s es) := by
  intro es
  induction es with
  | nil => intro s hc; exact hc
  | cons e es ih =>
    intro s hc
    exact ih _ (consistent_put e hc)

/-- C8: for every state reachable by `IndexedStore::put`s from `new`, every
digest any query returns satisfies `contains` on the underlying store; and
immediately after `put e` returns digest `d`, `d` is visible in
`query_by_type` for `e`'s type, in `query_by_field` for each `String` index
entry of `e`, and in `query_references_to` for each relationship target of
`e`. -/
theorem C8_facade (es : List Envelope) (e : Envelope) (k v : List Nat)
    (r : Relationship) :
    StoreIndexConsistent (IndexedStore.putAll IndexedStore.new es)
    ∧ (((IndexedStore.putAll IndexedStore.new es).put e).1
        ∈ ((IndexedStore.putAll IndexedStore.new es).put e).2.query_by_type e.type_hash)
    ∧ ((k, IndexValue.string v) ∈ e.index →
        ((IndexedStore.putAll IndexedStore.new es).put e).1
          ∈ ((IndexedStore.putAll IndexedStore.new es).put e).2.query_by_field k v)
    ∧ (r ∈ e.relationships →
        ((IndexedStore.putAll IndexedStore.new es).put e).1
          ∈ ((IndexedStore.putAll IndexedStore.new es).put e).2.query_references_to
              r.target) := by
  refine ⟨consistent_putAll es IndexedStore.new consistent_new, ?_, ?_, ?_⟩
  · exact queryByType_add_self _ _ e
  · intro hmem
    exact queryByField_add_mem _ _ e hmem
  · intro hr
    exact queryReferencesTo_add_mem _ _ e hr

/-- C8 witness: putting `eWit` into the empty facade makes its digest
visible to the field query for its index entry and to the reverse-reference
query for its relationship target. -/
theorem C8_witness :
    ((IndexedStore.putAll IndexedStore.new []).put eWit).1
      ∈ ((IndexedStore.putAll IndexedStore.new []).put eWit).2.query_by_field [107] [118]
    ∧ ((IndexedStore.putAll IndexedStore.new []).put eWit).1
      ∈ ((IndexedStore.putAll IndexedStore.new []).put eWit).2.query_references_to
          relA.target :=
  ⟨(C8_facade [] eWit [107] [118] relA).2.2.1 (by decide),
   (C8_facade [] eWit [107] [118] relA).2.2.2 (by decide)⟩
